import Mathlib

/-!
GalaxyGroveAssignment: the graph core of `Program`

A shallow embedding of `src/Program.cpp` / `src/Program.h`: the 26 x 26 adjacency
matrix `mGraph`, `AddConnection`, `ParseLine`, `GetIncomingConnections`,
`CleanGraph`, `PrintGraph` and `GenerateRandomGraph`.

Conventions.

* A `char` is its character code, a `Nat` (`'A'` is 65, `'a'` is 97, `'-'` is 45,
  `'<'` is 60, `'>'` is 62); a `std::string` is the list of its characters.
* `mGraph` is a function `Fin 26 → Fin 26 → Bool`, read `mGraph frm dst` (the names `from` and
  `to` of the source are reserved words here).
  An access `mGraph[r][c]` whose indices are computed integers goes through
  `load` / `store`, which follow the row-major layout of the C array: the cell
  addressed is the one at offset `26 * r + c` from the start of the matrix.
* Console output is returned as a value: `ParseLine` returns the `bool`,
  `CleanGraph` the list of nodes it reports as removed, `PrintGraph` the printed
  lines without the colour escape codes.
* The random engine of `GenerateRandomGraph` is the sequence of numbers it hands out.
-/

namespace Program

/-! ## Definitions -/

/-- The characters of a string literal, as character codes. -/
def str (s : String) : List Nat := s.toList.map Char.toNat

/-- The matrix `bool mGraph[MAX_NODES][MAX_NODES]` with `MAX_NODES = 26`, stored in a
`[from][to]` manner. -/
abbrev Graph := Fin 26 → Fin 26 → Bool

/-- The constructor `Program::Program() : mGraph()`: the matrix is zero-initialised. -/
def ctor : Graph := fun _ _ => false

/-- The function `std::isalpha` in the default "C" locale: true exactly on `A`..`Z`
and `a`..`z`. -/
def isalpha (c : Nat) : Bool := (65 ≤ c && c ≤ 90) || (97 ≤ c && c ≤ 122)

/-- The function `toupper` in the default "C" locale: `a`..`z` go to `A`..`Z`, every
other character is returned as it is. -/
def toupper (c : Nat) : Nat := if 97 ≤ c ∧ c ≤ 122 then c - 32 else c

/-- The helper `IDToInt(inID) = (int)(inID) - 65`. -/
def IDToInt (inID : Nat) : Int := (inID : Int) - 65

/-- The helper `IntToID(inInt) = (char)(inInt) + 65`. It is only called on the loop
indices `0..25`, where the result is one of `'A'..'Z'`. -/
def IntToID (inInt : Nat) : Nat := inInt + 65

/-- The store `mGraph[r][c] = v`. The matrix is laid out row by row, so the store hits
the cell `(a, b)` with `26 * a + b = 26 * r + c`; a store whose offset is outside
`[0, 676)` does not land in the matrix. -/
def store (mGraph : Graph) (r c : Int) (v : Bool) : Graph :=
  fun a b => if 26 * (a.val : Int) + (b.val : Int) = 26 * r + c then v else mGraph a b

/-- The read `mGraph[r][c]`. An offset `26 * r + c` inside `[0, 676)` reads the matrix
cell at that offset; any other offset reads the memory that lies outside the matrix,
whose contents are given by `beyond`. -/
def load (mGraph : Graph) (beyond : Int → Bool) (r c : Int) : Bool :=
  if h : 0 ≤ 26 * r + c ∧ 26 * r + c < 676 then
    mGraph ⟨((26 * r + c) / 26).toNat, by omega⟩ ⟨((26 * r + c) % 26).toNat, by omega⟩
  else beyond (26 * r + c)

/-- The method `Program::AddConnection(inFromID, inToID)`. -/
def AddConnection (inFromID inToID : Nat) (mGraph : Graph) : Graph :=
  let frm := IDToInt inFromID
  let dst := IDToInt inToID
  store mGraph frm dst true

/-- The method `Program::ParseLine(inLine)`: the returned `bool` and the matrix after
the call. Each `return false` of the source leaves the matrix as it was (the logged
error text is not part of the model). -/
def ParseLine (inLine : List Nat) (mGraph : Graph) : Bool × Graph :=
  if inLine.length ≠ 4 then (false, mGraph)
  else
    let leftID := inLine.getD 0 0
    let rightID := inLine.getD 3 0
    if !isalpha leftID then (false, mGraph)
    else if !isalpha rightID then (false, mGraph)
    else
      let leftID := toupper leftID
      let rightID := toupper rightID
      if leftID = rightID then (false, mGraph)
      else
        let connection := (inLine.drop 1).take 2
        if connection = str "->" then
          (true, AddConnection leftID rightID mGraph)
        else if connection = str "<-" then
          (true, AddConnection rightID leftID mGraph)
        else if connection = str "<>" then
          (true, AddConnection rightID leftID (AddConnection leftID rightID mGraph))
        else (false, mGraph)

/-- The loop of `Program::FileToGraph` and of the add-connection menu: every line is
handed to `ParseLine`, whose result is ignored. -/
def parseLines (lines : List (List Nat)) (mGraph : Graph) : Graph :=
  lines.foldl (fun g line => (ParseLine line g).2) mGraph

/-- The method `Program::GetIncomingConnections(inToIndex, outConnections)`: the
vector after the call. -/
def GetIncomingConnections (mGraph : Graph) (inToIndex : Fin 26)
    (outConnections : List (Fin 26)) : List (Fin 26) :=
  (List.finRange 26).foldl
    (fun out frm => if mGraph frm inToIndex then out ++ [frm] else out) outConnections

/-- The inner loop of `CleanGraph`: for `j = 0..25`, `mGraph[j][i] = false` and
`mGraph[i][j] = false`. -/
def clearNode (mGraph : Graph) (i : Fin 26) : Graph :=
  (List.finRange 26).foldl
    (fun g j => store (store g (j.val : Int) (i.val : Int) false) (i.val : Int) (j.val : Int) false)
    mGraph

/-- One iteration of the outer loop of `CleanGraph` at index `i`, on the matrix and
the list of nodes reported as removed so far. The source compares the `size_t` size
of the vector with the `int` argument; the size is at most 26, so for every `int`
the comparison holds exactly when the two numbers are equal. -/
def cleanStep (inNumConnectionsForRemoval : Int) (s : Graph × List (Fin 26)) (i : Fin 26) :
    Graph × List (Fin 26) :=
  let incomingConnections := GetIncomingConnections s.1 i []
  if (incomingConnections.length : Int) = inNumConnectionsForRemoval then
    (clearNode s.1 i, s.2 ++ [i])
  else s

/-- The outer loop of `CleanGraph` run over the indices `is`, in that order. -/
def cleanSweep (inNumConnectionsForRemoval : Int) (is : List (Fin 26))
    (s : Graph × List (Fin 26)) : Graph × List (Fin 26) :=
  is.foldl (cleanStep inNumConnectionsForRemoval) s

/-- The method `Program::CleanGraph(inNumConnectionsForRemoval)`: the matrix after the
call and the nodes printed as "Removing", in the order they are printed. -/
def CleanGraph (inNumConnectionsForRemoval : Int) (mGraph : Graph) : Graph × List (Fin 26) :=
  cleanSweep inNumConnectionsForRemoval (List.finRange 26) (mGraph, [])

/-- The state of `CleanGraph` after the first `k` iterations of its outer loop, that
is after the indices `0 .. k-1` have been visited. -/
def sweepUpTo (inNumConnectionsForRemoval : Int) (mGraph : Graph) (k : Nat) :
    Graph × List (Fin 26) :=
  cleanSweep inNumConnectionsForRemoval ((List.finRange 26).take k) (mGraph, [])

/-- The matrix at the moment the sweep of `CleanGraph` reaches index `i`: the indices
below `i` have been handled, `i` itself has not. -/
def visitState (inNumConnectionsForRemoval : Int) (mGraph : Graph) (i : Fin 26) : Graph :=
  (sweepUpTo inNumConnectionsForRemoval mGraph i.val).1

/-- The number of incoming connections of node `i`, as `CleanGraph` computes it. -/
def inDegree (mGraph : Graph) (i : Fin 26) : Nat :=
  (GetIncomingConnections mGraph i []).length

/-- The method `Program::PrintGraph()`: the printed lines, in order, without the colour
escape codes around them. -/
def PrintGraph (mGraph : Graph) : List (List Nat) :=
  (List.finRange 26).foldl
    (fun out frm =>
      (List.finRange 26).foldl
        (fun out dst =>
          if mGraph frm dst then
            let isBidirectional := mGraph dst frm
            let connection := if isBidirectional then str "<>" else str "->"
            if isBidirectional && decide (frm > dst) then out
            else out ++ [[IntToID frm.val] ++ connection ++ [IntToID dst.val]]
          else out)
        out)
    []

/-- The `do ... while (numConnections > 0)` loop of `GenerateRandomGraph`. Each
iteration takes the next two numbers of `nodesDistribution` from `draws`; the loop
has no bound of its own, so the result is `none` when `draws` is used up before the
loop condition fails. The test `!mGraph[from][to]` indexes the matrix with the two
`char` values themselves. -/
def generateLoop (beyond : Int → Bool) :
    List (Nat × Nat) → Graph → Int → Option Graph
  | [], _, _ => none
  | d :: draws, mGraph, numConnections =>
    let frm := d.1 + 65
    let dst := d.2 + 65
    if frm = dst then
      if numConnections > 0 then generateLoop beyond draws mGraph numConnections
      else some mGraph
    else if !load mGraph beyond (frm : Int) (dst : Int) then
      let mGraph := AddConnection frm dst mGraph
      let numConnections := numConnections - 1
      if numConnections > 0 then generateLoop beyond draws mGraph numConnections
      else some mGraph
    else
      if numConnections > 0 then generateLoop beyond draws mGraph numConnections
      else some mGraph

/-- The constant `maxNumConnections = inNumNodes * (inNumNodes - 1)` of
`GenerateRandomGraph`. -/
def maxNumConnections (inNumNodes : Int) : Int := inNumNodes * (inNumNodes - 1)

/-- What the two distributions of `GenerateRandomGraph(inNumNodes)` can hand out:
`connectionsDistribution` a number between `maxNumConnections / 3` and
`maxNumConnections`, `nodesDistribution` numbers between `0` and `inNumNodes - 1`. -/
def drawsFor (inNumNodes : Int) (connectionsDraw : Int) (draws : List (Nat × Nat)) : Bool :=
  decide (maxNumConnections inNumNodes / 3 ≤ connectionsDraw) &&
  decide (connectionsDraw ≤ maxNumConnections inNumNodes) &&
  draws.all fun d => decide ((d.1 : Int) ≤ inNumNodes - 1) && decide ((d.2 : Int) ≤ inNumNodes - 1)

/-- The method `Program::GenerateRandomGraph(inNumNodes)`. `connectionsDraw` is the
number handed out by `connectionsDistribution`, `draws` the numbers handed out by
`nodesDistribution`, two per iteration; `inNumNodes` enters the body only through
the ranges of the two distributions, see `drawsFor`. The do-while loop ends on its
own condition or not at all: `none` stands for a run that has used up `draws`. -/
def GenerateRandomGraph (beyond : Int → Bool) (connectionsDraw : Int)
    (draws : List (Nat × Nat)) (mGraph : Graph) : Option Graph :=
  let numConnections := max 1 connectionsDraw
  generateLoop beyond draws mGraph numConnections

/-- A call of one of the three mutating methods of `Program`, with its argument and,
for `GenerateRandomGraph`, the numbers its random engine hands out and the memory
outside the matrix during the call. -/
inductive Op where
  | parseLine (inLine : List Nat)
  | cleanGraph (inNumConnectionsForRemoval : Int)
  | generateRandomGraph (inNumNodes : Int) (beyond : Int → Bool) (connectionsDraw : Int)
      (draws : List (Nat × Nat))

/-- The contract of the callers: `GenerateRandomGraph` is called with `inNumNodes` between 2
and 26 (checked by `ShowRandomDataMenu`), and the distributions stay in their ranges. -/
def Op.wellFormed : Op → Bool
  | .parseLine _ => true
  | .cleanGraph _ => true
  | .generateRandomGraph inNumNodes _ connectionsDraw draws =>
    decide (2 ≤ inNumNodes) && decide (inNumNodes ≤ 26) &&
      drawsFor inNumNodes connectionsDraw draws

/-- The matrix after one call, `none` when a `GenerateRandomGraph` does not finish. -/
def Op.run : Op → Graph → Option Graph
  | .parseLine inLine, mGraph => some (ParseLine inLine mGraph).2
  | .cleanGraph inNumConnectionsForRemoval, mGraph =>
    some (CleanGraph inNumConnectionsForRemoval mGraph).1
  | .generateRandomGraph _ beyond connectionsDraw draws, mGraph =>
    GenerateRandomGraph beyond connectionsDraw draws mGraph

/-- The matrix after a sequence of calls, made one after the other. -/
def runOps : List Op → Graph → Option Graph
  | [], mGraph => some mGraph
  | op :: ops, mGraph =>
    match op.run mGraph with
    | none => none
    | some mGraph => runOps ops mGraph

/-- The number of connections in the matrix. -/
def numEdges (mGraph : Graph) : Nat :=
  ((List.finRange 26).map fun a => ((List.finRange 26).filter fun b => mGraph a b).length).sum

/-- The graph of the lines `A->B`, `B<-C`, `D<>E`. -/
def exampleLines : Graph := parseLines [str "A->B", str "B<-C", str "D<>E"] ctor

/-- The graph of the lines `Y->X`, `X->Z`, `Y->Z` (`X`, `Y`, `Z` are the indices 23, 24,
25): with threshold 1 node `X` is removed first, which brings the in-degree of `Z`
from 2 to 1. -/
def exampleEarlier : Graph := parseLines [str "Y->X", str "X->Z", str "Y->Z"] ctor

/-- The graph of the lines `Y->X`, `Z->X`, `W->Z`: with threshold 1 node `Z` is removed
after `X` has been visited, which brings the in-degree of `X` from 2 to 1. -/
def exampleLater : Graph := parseLines [str "Y->X", str "Z->X", str "W->Z"] ctor

/-- A session: two parsed lines, a clean that removes `Z`, a random graph on 3 nodes, a
rejected line. -/
def exampleSession : List Op :=
  [.parseLine (str "X->Z"), .parseLine (str "y->z"), .cleanGraph 2,
   .generateRandomGraph 3 (fun _ => false) 2 [(1, 1), (0, 2), (2, 1)],
   .parseLine (str "Q->q")]

/-! ## Theorems -/

/-- The characters of `->`. -/
theorem str_to : str "->" = [45, 62] := by decide

/-- The characters of `<-`. -/
theorem str_from : str "<-" = [60, 45] := by decide

/-- The characters of `<>`. -/
theorem str_both : str "<>" = [60, 62] := by decide

/-- A store at indices inside the matrix changes exactly the addressed cell. -/
theorem store_apply (g : Graph) (r c a b : Fin 26) (v : Bool) :
    store g (r.val : Int) (c.val : Int) v a b = if a = r ∧ b = c then v else g a b := by
  unfold store
  have hiff : (26 * (a.val : Int) + (b.val : Int) = 26 * (r.val : Int) + (c.val : Int)) ↔
      (a = r ∧ b = c) := by
    constructor
    · intro h
      have ha := a.isLt
      have hb := b.isLt
      have hr := r.isLt
      have hc := c.isLt
      constructor <;> apply Fin.ext <;> omega
    · rintro ⟨rfl, rfl⟩
      rfl
  by_cases h : a = r ∧ b = c
  · rw [if_pos h, if_pos (hiff.mpr h)]
  · rw [if_neg h, if_neg (fun h2 => h (hiff.mp h2))]

/-- Storing the same value twice at one place is storing it once. -/
theorem store_idem (g : Graph) (r c : Int) (v : Bool) :
    store (store g r c v) r c v = store g r c v := by
  funext a b
  unfold store
  split <;> rfl

/-- Two stores of the same value commute. -/
theorem store_comm (g : Graph) (r c r2 c2 : Int) (v : Bool) :
    store (store g r c v) r2 c2 v = store (store g r2 c2 v) r c v := by
  funext a b
  unfold store
  split <;> split <;> rfl

/-- A store of `true` adds to the matrix what it adds to the empty matrix. -/
theorem store_true_or (g : Graph) (r c : Int) (a b : Fin 26) :
    store g r c true a b = (g a b || store ctor r c true a b) := by
  unfold store ctor
  split <;> simp

/-- Upper-casing a letter gives one of `A`..`Z`. -/
theorem toupper_range (c : Nat) (h : isalpha c = true) :
    65 ≤ toupper c ∧ toupper c ≤ 90 := by
  unfold isalpha at h
  unfold toupper
  simp only [Bool.or_eq_true, Bool.and_eq_true, decide_eq_true_eq] at h
  split <;> omega

/-- The letter of an index is alphabetic and already upper case. -/
theorem IntToID_letter (i : Fin 26) :
    isalpha (IntToID i.val) = true ∧ toupper (IntToID i.val) = IntToID i.val ∧
      IDToInt (IntToID i.val) = (i.val : Int) := by
  have hi := i.isLt
  unfold isalpha toupper IntToID IDToInt
  refine ⟨?_, ?_, ?_⟩
  · simp only [Bool.or_eq_true, Bool.and_eq_true, decide_eq_true_eq]
    omega
  · rw [if_neg (by omega)]
  · push_cast
    omega

/-- The connection added for two letters given by their indices. -/
theorem AddConnection_apply (g : Graph) (l r a b : Fin 26) :
    AddConnection (IntToID l.val) (IntToID r.val) g a b =
      if a = l ∧ b = r then true else g a b := by
  unfold AddConnection
  simp only [(IntToID_letter l).2.2, (IntToID_letter r).2.2]
  exact store_apply g l r a b true

/-- A store at integer indices inside the matrix changes exactly the addressed cell. -/
theorem store_apply_int (g : Graph) (r c : Int) (_hr : 0 ≤ r ∧ r < 26) (hc : 0 ≤ c ∧ c < 26)
    (a b : Fin 26) (v : Bool) :
    store g r c v a b = if (a.val : Int) = r ∧ (b.val : Int) = c then v else g a b := by
  unfold store
  have ha := a.isLt
  have hb := b.isLt
  by_cases h : (a.val : Int) = r ∧ (b.val : Int) = c
  · rw [if_pos h, if_pos (by omega)]
  · rw [if_neg h, if_neg (by omega)]

/-- The index of an upper-cased letter lies in the matrix. -/
theorem IDToInt_toupper_range (c : Nat) (h : isalpha c = true) :
    0 ≤ IDToInt (toupper c) ∧ IDToInt (toupper c) < 26 := by
  have := toupper_range c h
  unfold IDToInt
  omega

/-- Different upper-cased letters have different indices. -/
theorem IDToInt_ne (x y : Nat) (h : x ≠ y) : IDToInt x ≠ IDToInt y := by
  unfold IDToInt
  omega

/-- On a line of four characters whose ends are two different letters, `ParseLine` is
decided by the two characters in the middle. -/
theorem ParseLine_letters (g : Graph) (c0 m1 m2 c3 : Nat)
    (h0 : isalpha c0 = true) (h3 : isalpha c3 = true) (hne : toupper c0 ≠ toupper c3) :
    ParseLine [c0, m1, m2, c3] g =
      if m1 = 45 ∧ m2 = 62 then (true, AddConnection (toupper c0) (toupper c3) g)
      else if m1 = 60 ∧ m2 = 45 then (true, AddConnection (toupper c3) (toupper c0) g)
      else if m1 = 60 ∧ m2 = 62 then
        (true, AddConnection (toupper c3) (toupper c0)
          (AddConnection (toupper c0) (toupper c3) g))
      else (false, g) := by
  simp [ParseLine, h0, h3, hne, str_to, str_from, str_both]

/-- C2: `ParseLine` returns false exactly when the line does not have four characters,
or its first or its last character is not alphabetic, or the two end letters are equal
after upper-casing, or the two characters in the middle are none of `->`, `<-`, `<>`;
a call that returns false leaves the matrix as it was; and a line whose end letters are
the same letter, in any mix of cases, is rejected whatever stands in the middle. -/
theorem ParseLine_rejects (g : Graph) (inLine : List Nat) :
    ((ParseLine inLine g).1 = false ↔
      (inLine.length ≠ 4 ∨ isalpha (inLine.getD 0 0) = false ∨
        isalpha (inLine.getD 3 0) = false ∨
        toupper (inLine.getD 0 0) = toupper (inLine.getD 3 0) ∨
        ((inLine.drop 1).take 2 ≠ str "->" ∧ (inLine.drop 1).take 2 ≠ str "<-" ∧
          (inLine.drop 1).take 2 ≠ str "<>"))) ∧
    ((ParseLine inLine g).1 = false → (ParseLine inLine g).2 = g) ∧
    (∀ c m1 m2 d : Nat, isalpha c = true → isalpha d = true → toupper c = toupper d →
      ParseLine [c, m1, m2, d] g = (false, g)) := by
  refine ⟨?_, ?_, ?_⟩
  · simp only [ParseLine]
    split_ifs <;> simp_all
  · simp only [ParseLine]
    split_ifs <;> simp
  · intro c m1 m2 d hc hd hcd
    simp [ParseLine, hc, hd, hcd]

/-- The lines `AB`, `1->B` and `a<>A` are rejected and change nothing. -/
theorem ParseLine_rejects_witness :
    (ParseLine (str "AB") exampleLines).1 = false ∧
    (ParseLine (str "1->B") exampleLines).2 = exampleLines ∧
    ParseLine (str "a<>A") exampleLines = (false, exampleLines) :=
  ⟨(ParseLine_rejects exampleLines (str "AB")).1.mpr (Or.inl (by decide)),
    (ParseLine_rejects exampleLines (str "1->B")).2.1
      ((ParseLine_rejects exampleLines (str "1->B")).1.mpr (Or.inr (Or.inl (by decide)))),
    (ParseLine_rejects exampleLines (str "a<>A")).2.2 97 60 62 65 (by decide) (by decide)
      (by decide)⟩

/-- The test and the effect of `ParseLine` do not depend on the matrix: the returned
`bool` is the same on every matrix. -/
theorem ParseLine_fst (g h : Graph) (inLine : List Nat) :
    (ParseLine inLine g).1 = (ParseLine inLine h).1 := by
  simp only [ParseLine]
  split_ifs <;> rfl

/-- C9: a line accepted by `ParseLine` can be parsed a second time: the second call
returns true as well and leaves the matrix produced by the first call as it is. -/
theorem ParseLine_idempotent (g : Graph) (inLine : List Nat)
    (h : (ParseLine inLine g).1 = true) :
    ParseLine inLine (ParseLine inLine g).2 = (true, (ParseLine inLine g).2) := by
  simp only [ParseLine] at h ⊢
  split_ifs at h ⊢ <;> simp_all [AddConnection, store_idem]
  rename_i h1 h2 h3 h4 h5 h6 h7
  rw [store_comm (store (store g _ _ true) _ _ true), store_idem, store_comm, store_idem]

/-- The line `b<-Z`, parsed twice. -/
theorem ParseLine_idempotent_witness :
    (ParseLine (str "b<-Z") exampleLines).1 = true ∧
    ParseLine (str "b<-Z") (ParseLine (str "b<-Z") exampleLines).2 =
      (true, (ParseLine (str "b<-Z") exampleLines).2) :=
  ⟨by decide, ParseLine_idempotent exampleLines (str "b<-Z") (by decide)⟩

/-- The loop of `GetIncomingConnections` appends the sources of the incoming
connections, in ascending order. -/
theorem GetIncomingConnections_eq (g : Graph) (i : Fin 26) (out : List (Fin 26)) :
    GetIncomingConnections g i out = out ++ (List.finRange 26).filter (fun frm => g frm i) := by
  unfold GetIncomingConnections
  generalize List.finRange 26 = L
  induction L generalizing out with
  | nil => simp
  | cons x xs ih =>
    simp only [List.foldl_cons, List.filter_cons]
    split <;> simp [ih]

/-- The inner loop of `CleanGraph`, run over any list of indices `j`. -/
theorem clearLoop_apply (i : Fin 26) (L : List (Fin 26)) (g : Graph) (a b : Fin 26) :
    (L.foldl (fun g j => store (store g (j.val : Int) (i.val : Int) false)
        (i.val : Int) (j.val : Int) false) g) a b =
      if (b = i ∧ a ∈ L) ∨ (a = i ∧ b ∈ L) then false else g a b := by
  induction L generalizing g with
  | nil => simp
  | cons j js ih =>
    rw [List.foldl_cons, ih, store_apply, store_apply]
    simp only [List.mem_cons]
    split_ifs <;> first | rfl | (exfalso; tauto)

/-- Clearing node `i` empties row `i` and column `i` and nothing else. -/
theorem clearNode_apply (g : Graph) (i a b : Fin 26) :
    clearNode g i a b = if a = i ∨ b = i then false else g a b := by
  unfold clearNode
  rw [clearLoop_apply]
  simp only [List.mem_finRange, and_true]
  by_cases h1 : b = i <;> by_cases h2 : a = i <;> simp [h1, h2]

/-- The sweep over a list followed by another list. -/
theorem cleanSweep_append (t : Int) (L1 L2 : List (Fin 26)) (s : Graph × List (Fin 26)) :
    cleanSweep t (L1 ++ L2) s = cleanSweep t L2 (cleanSweep t L1 s) := by
  unfold cleanSweep
  rw [List.foldl_append]

/-- The sweep over a list with a first element. -/
theorem cleanSweep_cons (t : Int) (i : Fin 26) (L : List (Fin 26))
    (s : Graph × List (Fin 26)) :
    cleanSweep t (i :: L) s = cleanSweep t L (cleanStep t s i) := rfl

/-- One visit of the sweep, with the in-degree named. -/
theorem cleanStep_eq (t : Int) (s : Graph × List (Fin 26)) (i : Fin 26) :
    cleanStep t s i =
      if (inDegree s.1 i : Int) = t then (clearNode s.1 i, s.2 ++ [i]) else s := rfl

/-- A visit reports node `i` exactly when its in-degree equals the threshold. -/
theorem mem_cleanStep (t : Int) (s : Graph × List (Fin 26)) (i x : Fin 26) :
    x ∈ (cleanStep t s i).2 ↔ x ∈ s.2 ∨ (x = i ∧ (inDegree s.1 i : Int) = t) := by
  rw [cleanStep_eq]
  split <;> simp_all

/-- A node reported by a sweep was reported before it or is one of the visited. -/
theorem mem_cleanSweep (t : Int) (L : List (Fin 26)) (s : Graph × List (Fin 26))
    (x : Fin 26) (h : x ∈ (cleanSweep t L s).2) : x ∈ s.2 ∨ x ∈ L := by
  induction L generalizing s with
  | nil => exact Or.inl h
  | cons i is ih =>
    rw [cleanSweep_cons] at h
    rcases ih _ h with h1 | h1
    · rcases (mem_cleanStep t s i x).mp h1 with h2 | h2
      · exact Or.inl h2
      · exact Or.inr (by simp [h2.1])
    · exact Or.inr (List.mem_cons_of_mem _ h1)

/-- A node reported before a sweep stays reported. -/
theorem cleanSweep_mono (t : Int) (L : List (Fin 26)) (s : Graph × List (Fin 26))
    (x : Fin 26) (h : x ∈ s.2) : x ∈ (cleanSweep t L s).2 := by
  induction L generalizing s with
  | nil => exact h
  | cons i is ih =>
    rw [cleanSweep_cons]
    exact ih _ ((mem_cleanStep t s i x).mpr (Or.inl h))

/-- The matrix during a sweep: the connections of the start matrix between nodes not
reported so far. -/
theorem cleanSweep_matrix (t : Int) (g0 : Graph) (L : List (Fin 26))
    (s : Graph × List (Fin 26))
    (hs : ∀ a b, s.1 a b = true ↔ (g0 a b = true ∧ a ∉ s.2 ∧ b ∉ s.2)) :
    ∀ a b, (cleanSweep t L s).1 a b = true ↔
      (g0 a b = true ∧ a ∉ (cleanSweep t L s).2 ∧ b ∉ (cleanSweep t L s).2) := by
  induction L generalizing s with
  | nil => exact hs
  | cons i is ih =>
    rw [cleanSweep_cons]
    apply ih
    intro a b
    rw [cleanStep_eq]
    split
    · simp only [clearNode_apply, List.mem_append, List.mem_singleton, not_or]
      by_cases h1 : a = i <;> by_cases h2 : b = i <;> simp [h1, h2, hs]
    · exact hs a b

/-- The matrix after `CleanGraph`: the connections of the matrix before the call
between two nodes that were not reported as removed. -/
theorem CleanGraph_matrix (t : Int) (g : Graph) (a b : Fin 26) :
    (CleanGraph t g).1 a b = true ↔
      (g a b = true ∧ a ∉ (CleanGraph t g).2 ∧ b ∉ (CleanGraph t g).2) := by
  unfold CleanGraph
  exact cleanSweep_matrix t g _ (g, []) (by simp) a b

/-- The indices `0..25` split at `i`. -/
theorem finRange_split (i : Fin 26) :
    List.finRange 26 =
      (List.finRange 26).take i.val ++ i :: (List.finRange 26).drop (i.val + 1) := by
  have hlen : i.val < (List.finRange 26).length := by simp
  conv_lhs => rw [← List.take_append_drop i.val (List.finRange 26)]
  rw [List.drop_eq_getElem_cons hlen]
  simp

/-- A node is reported by `CleanGraph` exactly when its in-degree, in the matrix at the
moment it is visited, equals the threshold. -/
theorem mem_CleanGraph (t : Int) (g : Graph) (i : Fin 26) :
    i ∈ (CleanGraph t g).2 ↔ (inDegree (visitState t g i) i : Int) = t := by
  have hnd := List.nodup_finRange 26
  rw [finRange_split i, List.nodup_append] at hnd
  obtain ⟨_, hpost, hdisj⟩ := hnd
  have hpre : i ∉ (List.finRange 26).take i.val := fun h =>
    hdisj h (List.mem_cons_self _ _)
  have hpost2 : i ∉ (List.finRange 26).drop (i.val + 1) := (List.nodup_cons.mp hpost).1
  unfold CleanGraph visitState sweepUpTo
  conv_lhs => rw [finRange_split i, cleanSweep_append, cleanSweep_cons]
  constructor
  · intro h
    rcases mem_cleanSweep _ _ _ _ h with h1 | h1
    · rcases (mem_cleanStep _ _ _ _).mp h1 with h2 | h2
      · rcases mem_cleanSweep _ _ _ _ h2 with h3 | h3
        · simp at h3
        · exact absurd h3 hpre
      · exact h2.2
    · exact absurd h1 hpost2
  · intro h
    exact cleanSweep_mono _ _ _ _ ((mem_cleanStep _ _ _ _).mpr (Or.inr ⟨rfl, h⟩))

/-- Before the first visit the sweep has done nothing. -/
theorem sweepUpTo_zero (t : Int) (g : Graph) : sweepUpTo t g 0 = (g, []) := rfl

/-- The state after the visit of `i` is one step from the state before it. -/
theorem sweepUpTo_succ (t : Int) (g : Graph) (i : Fin 26) :
    sweepUpTo t g (i.val + 1) = cleanStep t (sweepUpTo t g i.val) i := by
  have hlen : i.val < (List.finRange 26).length := by simp
  unfold sweepUpTo
  rw [List.take_succ, cleanSweep_append, List.getElem?_eq_getElem hlen]
  simp [cleanSweep_cons, cleanSweep]

/-- After the 26 visits the sweep is the whole of `CleanGraph`. -/
theorem sweepUpTo_all (t : Int) (g : Graph) : sweepUpTo t g 26 = CleanGraph t g := by
  unfold sweepUpTo CleanGraph
  rw [List.take_of_length_le (by simp)]

/-- An entry between two nodes that were not removed is as before the call. -/
theorem CleanGraph_unchanged (t : Int) (g : Graph) (a b : Fin 26)
    (ha : a ∉ (CleanGraph t g).2) (hb : b ∉ (CleanGraph t g).2) :
    (CleanGraph t g).1 a b = g a b := by
  cases hg : g a b
  · cases hv : (CleanGraph t g).1 a b
    · rfl
    · have := ((CleanGraph_matrix t g a b).mp hv).1
      rw [hg] at this
      exact absurd this Bool.false_ne_true
  · exact (CleanGraph_matrix t g a b).mpr ⟨hg, ha, hb⟩

/-- C3: after `CleanGraph(t)` every node reported as removed has no connection left, in
either direction, in the final matrix. -/
theorem CleanGraph_removed_isolated (t : Int) (g : Graph) (x : Fin 26)
    (hx : x ∈ (CleanGraph t g).2) :
    ∀ j : Fin 26, (CleanGraph t g).1 j x = false ∧ (CleanGraph t g).1 x j = false := by
  intro j
  constructor
  · cases hv : (CleanGraph t g).1 j x
    · rfl
    · exact absurd hx ((CleanGraph_matrix t g j x).mp hv).2.2
  · cases hv : (CleanGraph t g).1 x j
    · rfl
    · exact absurd hx ((CleanGraph_matrix t g x j).mp hv).2.1

/-- Node `Z` of the graph `Y->X`, `X->Z`, `Y->Z`, removed with threshold 1. -/
theorem CleanGraph_removed_isolated_witness :
    (25 : Fin 26) ∈ (CleanGraph 1 exampleEarlier).2 ∧
    ∀ j : Fin 26, (CleanGraph 1 exampleEarlier).1 j 25 = false ∧
      (CleanGraph 1 exampleEarlier).1 25 j = false :=
  have hx : (25 : Fin 26) ∈ (CleanGraph 1 exampleEarlier).2 := by decide!
  ⟨hx, CleanGraph_removed_isolated 1 exampleEarlier 25 hx⟩

/-- C4: the visit of index `i` clears the connections of node `i` when the in-degree of
`i`, in the matrix as it is at that visit, equals the threshold, and leaves the matrix
alone otherwise; a node is reported as removed exactly under that condition.
`CleanGraph` adds no connection, every connection it deletes has a removed endpoint,
and every entry between two nodes that were not removed is as before. -/
theorem CleanGraph_frame (t : Int) (g : Graph) :
    (∀ i : Fin 26, (sweepUpTo t g (i.val + 1)).1 =
      if (inDegree (visitState t g i) i : Int) = t then clearNode (visitState t g i) i
      else visitState t g i) ∧
    (∀ i : Fin 26, i ∈ (CleanGraph t g).2 ↔ (inDegree (visitState t g i) i : Int) = t) ∧
    (∀ a b : Fin 26, (CleanGraph t g).1 a b = true → g a b = true) ∧
    (∀ a b : Fin 26, g a b = true → (CleanGraph t g).1 a b = false →
      a ∈ (CleanGraph t g).2 ∨ b ∈ (CleanGraph t g).2) ∧
    (∀ a b : Fin 26, a ∉ (CleanGraph t g).2 → b ∉ (CleanGraph t g).2 →
      (CleanGraph t g).1 a b = g a b) := by
  refine ⟨?_, mem_CleanGraph t g, ?_, ?_, ?_⟩
  · intro i
    rw [sweepUpTo_succ, cleanStep_eq]
    unfold visitState
    split <;> rfl
  · intro a b h
    exact ((CleanGraph_matrix t g a b).mp h).1
  · intro a b hg hc
    by_contra hcon
    rw [not_or] at hcon
    have := (CleanGraph_matrix t g a b).mpr ⟨hg, hcon.1, hcon.2⟩
    rw [hc] at this
    exact Bool.false_ne_true this
  · intro a b ha hb
    exact CleanGraph_unchanged t g a b ha hb

/-- C5, as the code has it: a node `j` whose in-degree at the moment of its own visit
differs from the threshold is not removed by the call, also when a removal made later
in the sweep brings its in-degree to the threshold; its connections with the nodes
that were not removed survive the call. -/
theorem CleanGraph_keeps (t : Int) (g : Graph) (j : Fin 26)
    (h : (inDegree (visitState t g j) j : Int) ≠ t) :
    j ∉ (CleanGraph t g).2 ∧
    ∀ a : Fin 26, a ∉ (CleanGraph t g).2 →
      ((CleanGraph t g).1 a j = g a j ∧ (CleanGraph t g).1 j a = g j a) := by
  have hj : j ∉ (CleanGraph t g).2 := fun hm => h ((mem_CleanGraph t g j).mp hm)
  refine ⟨hj, fun a ha => ⟨?_, ?_⟩⟩
  · exact CleanGraph_unchanged t g a j ha hj
  · exact CleanGraph_unchanged t g j a hj ha

/-- In the graph `Y->X`, `Z->X`, `W->Z` with threshold 1 node `X` has in-degree 2 when
visited; `Z` is removed later, which leaves `X` with in-degree 1, and `X` stays. -/
theorem CleanGraph_keeps_witness :
    ((inDegree (visitState 1 exampleLater 23) 23 : Int) ≠ 1 ∧
      (25 : Fin 26) ∈ (CleanGraph 1 exampleLater).2 ∧
      (inDegree (CleanGraph 1 exampleLater).1 23 : Int) = 1) ∧
    ((23 : Fin 26) ∉ (CleanGraph 1 exampleLater).2 ∧
    ∀ a : Fin 26, a ∉ (CleanGraph 1 exampleLater).2 →
      ((CleanGraph 1 exampleLater).1 a 23 = exampleLater a 23 ∧
        (CleanGraph 1 exampleLater).1 23 a = exampleLater 23 a)) :=
  have hx : (inDegree (visitState 1 exampleLater 23) 23 : Int) ≠ 1 := by decide!
  ⟨⟨hx, by decide!⟩, CleanGraph_keeps 1 exampleLater 23 hx⟩

/-- C5, as the claim has it, fails: in the graph `Y->X`, `X->Z`, `Y->Z` with threshold 1
the in-degree of `Z` is 2 before the call; `X`, visited earlier, is removed, and is the
only node removed before `Z` is visited; this brings the in-degree of `Z` to 1, and `Z`
is removed in the same call, with its remaining connection `Y->Z`. -/
theorem CleanGraph_earlier_counterexample :
    (inDegree exampleEarlier 25 : Int) ≠ 1 ∧
    (23 : Fin 26) < 25 ∧ (sweepUpTo 1 exampleEarlier 25).2 = [23] ∧
    (inDegree (visitState 1 exampleEarlier 25) 25 : Int) = 1 ∧
    (25 : Fin 26) ∈ (CleanGraph 1 exampleEarlier).2 ∧
    exampleEarlier 24 25 = true ∧ (CleanGraph 1 exampleEarlier).1 24 25 = false := by
  decide!

/-- A loop that appends to the output what `f` gives for each index. -/
theorem printLoop_eq (f : Fin 26 → List (List Nat)) (L : List (Fin 26))
    (out : List (List Nat)) :
    L.foldl (fun out x => out ++ f x) out = out ++ L.flatMap f := by
  induction L generalizing out with
  | nil => simp
  | cons x xs ih => simp [ih]

/-- The lines of `PrintGraph`, connection by connection. -/
theorem PrintGraph_eq (g : Graph) :
    PrintGraph g =
      (List.finRange 26).flatMap fun frm =>
        (List.finRange 26).flatMap fun dst =>
          if g frm dst = true ∧ ¬ (g dst frm = true ∧ dst < frm) then
            [[IntToID frm.val] ++ (if g dst frm then str "<>" else str "->") ++
              [IntToID dst.val]]
          else [] := by
  unfold PrintGraph
  have inner : ∀ (frm : Fin 26) (out : List (List Nat)),
      (List.finRange 26).foldl
        (fun out dst =>
          if g frm dst then
            let isBidirectional := g dst frm
            let connection := if isBidirectional then str "<>" else str "->"
            if isBidirectional && decide (frm > dst) then out
            else out ++ [[IntToID frm.val] ++ connection ++ [IntToID dst.val]]
          else out) out =
      out ++ (List.finRange 26).flatMap fun dst =>
          if g frm dst = true ∧ ¬ (g dst frm = true ∧ dst < frm) then
            [[IntToID frm.val] ++ (if g dst frm then str "<>" else str "->") ++
              [IntToID dst.val]]
          else [] := by
    intro frm out
    rw [← printLoop_eq]
    congr 1
    funext out dst
    by_cases h1 : g frm dst = true <;> by_cases h2 : g dst frm = true <;>
      by_cases h3 : dst < frm <;> simp [h1, h2, h3]
  simp only [inner]
  rw [printLoop_eq]
  simp

/-- The four characters of a printed line. -/
theorem line_eq (frm dst : Fin 26) (bidir : Bool) :
    [IntToID frm.val] ++ (if bidir then str "<>" else str "->") ++ [IntToID dst.val] =
      [frm.val + 65, if bidir then 60 else 45, 62, dst.val + 65] := by
  cases bidir <;> simp [IntToID, str_to, str_both]

/-- Two printed lines are equal only for the same connection and the same operator. -/
theorem line_inj (frm dst frm2 dst2 : Fin 26) (b b2 : Bool)
    (h : [frm.val + 65, if b then 60 else 45, 62, dst.val + 65] =
      [frm2.val + 65, if b2 then 60 else 45, 62, dst2.val + 65]) :
    frm = frm2 ∧ dst = dst2 ∧ b = b2 := by
  simp only [List.cons.injEq, and_true, true_and, add_left_inj] at h
  obtain ⟨h1, h2, h3⟩ := h
  refine ⟨Fin.ext h1, Fin.ext h3, ?_⟩
  cases b <;> cases b2 <;> simp_all

/-- The lines of `PrintGraph`: one for every connection `frm`, `dst` of the matrix,
unless the reverse connection exists as well and `dst` is the lower index. -/
theorem mem_PrintGraph (g : Graph) (l : List Nat) :
    l ∈ PrintGraph g ↔ ∃ frm dst : Fin 26,
      (g frm dst = true ∧ ¬ (g dst frm = true ∧ dst < frm)) ∧
      l = [frm.val + 65, if g dst frm then 60 else 45, 62, dst.val + 65] := by
  rw [PrintGraph_eq]
  simp only [List.mem_flatMap, List.mem_finRange, true_and, line_eq]
  constructor
  · rintro ⟨frm, dst, h⟩
    refine ⟨frm, dst, ?_⟩
    split at h
    · rename_i hc
      exact ⟨hc, by simpa using h⟩
    · simp at h
  · rintro ⟨frm, dst, hc, hl⟩
    refine ⟨frm, dst, ?_⟩
    rw [if_pos hc]
    simp [hl]

/-- No line is printed twice. -/
theorem PrintGraph_nodup (g : Graph) : (PrintGraph g).Nodup := by
  rw [PrintGraph_eq]
  simp only [line_eq]
  rw [List.nodup_flatMap]
  constructor
  · intro frm _
    rw [List.nodup_flatMap]
    constructor
    · intro dst _
      split <;> simp
    · refine (List.nodup_finRange 26).imp ?_
      intro d1 d2 hne
      simp only [Function.onFun]
      intro l h1 h2
      split at h1 <;> split at h2 <;> simp at h1 h2
      rw [h1] at h2
      exact hne (line_inj _ _ _ _ _ _ h2).2.1
  · refine (List.nodup_finRange 26).imp ?_
    intro f1 f2 hne
    simp only [Function.onFun]
    intro l h1 h2
    simp only [List.mem_flatMap, List.mem_finRange, true_and] at h1 h2
    obtain ⟨d1, h1⟩ := h1
    obtain ⟨d2, h2⟩ := h2
    split at h1 <;> split at h2 <;> simp at h1 h2
    rw [h1] at h2
    exact hne (line_inj _ _ _ _ _ _ h2).1

/-- An element of a list without repetition occurs in it once. -/
theorem count_eq_one_of_nodup {α : Type} [BEq α] [LawfulBEq α] (a : α) (l : List α)
    (hn : l.Nodup) (hm : a ∈ l) : l.count a = 1 := by
  induction l with
  | nil => simp at hm
  | cons x xs ih =>
    rw [List.nodup_cons] at hn
    rw [List.count_cons]
    by_cases hx : x = a
    · subst hx
      simp [List.count_eq_zero_of_not_mem hn.1]
    · have hmem : a ∈ xs := by
        rcases List.mem_cons.mp hm with h | h
        · exact absurd h.symm hx
        · exact h
      simp [ih hn.2 hmem, hx]

/-- C6: for two nodes `a < b` connected in both directions `PrintGraph` prints exactly
one line for the pair, made of the four characters: the letter of `a` (code `a + 65`),
`<` (60), `>` (62), the letter of `b` (code `b + 65`); it prints neither the reversed
line nor an `->` line (`-` is 45) for either direction of the pair. -/
theorem PrintGraph_bidirectional (g : Graph) (a b : Fin 26) (hab : a < b)
    (h1 : g a b = true) (h2 : g b a = true) :
    (PrintGraph g).count [a.val + 65, 60, 62, b.val + 65] = 1 ∧
    [b.val + 65, 60, 62, a.val + 65] ∉ PrintGraph g ∧
    [a.val + 65, 45, 62, b.val + 65] ∉ PrintGraph g ∧
    [b.val + 65, 45, 62, a.val + 65] ∉ PrintGraph g := by
  refine ⟨?_, ?_, ?_, ?_⟩
  · apply count_eq_one_of_nodup _ _ (PrintGraph_nodup g)
    rw [mem_PrintGraph]
    exact ⟨a, b, ⟨h1, fun hc => absurd hc.2 (not_lt.mpr hab.le)⟩, by simp [h2]⟩
  · intro hm
    obtain ⟨frm, dst, hc, hl⟩ := (mem_PrintGraph g _).mp hm
    have hinj := line_inj b a frm dst true (g dst frm) (by simpa using hl)
    obtain ⟨rfl, rfl, _⟩ := hinj
    exact hc.2 ⟨h1, hab⟩
  · intro hm
    obtain ⟨frm, dst, hc, hl⟩ := (mem_PrintGraph g _).mp hm
    have hinj := line_inj a b frm dst false (g dst frm) (by simpa using hl)
    obtain ⟨rfl, rfl, hb⟩ := hinj
    rw [h2] at hb
    exact Bool.false_ne_true hb
  · intro hm
    obtain ⟨frm, dst, hc, hl⟩ := (mem_PrintGraph g _).mp hm
    have hinj := line_inj b a frm dst false (g dst frm) (by simpa using hl)
    obtain ⟨rfl, rfl, hb⟩ := hinj
    rw [h1] at hb
    exact Bool.false_ne_true hb

/-- The pair `D`, `E` of the graph of `A->B`, `B<-C`, `D<>E`: the line `D<>E` is printed
once, none of `E<>D`, `D->E`, `E->D` is printed. -/
theorem PrintGraph_bidirectional_witness :
    ((3 : Fin 26) < 4 ∧ exampleLines 3 4 = true ∧ exampleLines 4 3 = true) ∧
    ((PrintGraph exampleLines).count [68, 60, 62, 69] = 1 ∧
    [69, 60, 62, 68] ∉ PrintGraph exampleLines ∧
    [68, 45, 62, 69] ∉ PrintGraph exampleLines ∧
    [69, 45, 62, 68] ∉ PrintGraph exampleLines) :=
  ⟨by decide, PrintGraph_bidirectional exampleLines 3 4 (by decide) (by decide) (by decide)⟩

/-- What a call of `ParseLine` adds does not depend on the matrix it is added to. -/
theorem ParseLine_or (h : Graph) (inLine : List Nat) (a b : Fin 26) :
    (ParseLine inLine h).2 a b = (h a b || (ParseLine inLine ctor).2 a b) := by
  simp only [ParseLine]
  split_ifs
  all_goals simp only [AddConnection]
  all_goals first
    | (rw [store_true_or, store_true_or h, store_true_or (store ctor _ _ true),
        Bool.or_assoc])
    | (rw [store_true_or])
    | simp [ctor]

/-- The matrix after a sequence of lines: what was there, and what the lines add. -/
theorem parseLines_apply (lines : List (List Nat)) (h : Graph) (a b : Fin 26) :
    parseLines lines h a b = true ↔
      (h a b = true ∨ ∃ l ∈ lines, (ParseLine l ctor).2 a b = true) := by
  unfold parseLines
  induction lines generalizing h with
  | nil => simp
  | cons l ls ih =>
    rw [List.foldl_cons, ih, ParseLine_or]
    simp only [Bool.or_eq_true, List.mem_cons, exists_eq_or_imp]
    tauto

/-- A printed line is accepted by `ParseLine`, which adds the connection it was printed
for, and the reverse connection as well when the operator is `<>`. -/
theorem ParseLine_printed (h : Graph) (frm dst : Fin 26) (hne : frm ≠ dst) (bidir : Bool) :
    (ParseLine [frm.val + 65, if bidir then 60 else 45, 62, dst.val + 65] h).1 = true ∧
    ∀ a b : Fin 26,
      (ParseLine [frm.val + 65, if bidir then 60 else 45, 62, dst.val + 65] h).2 a b =
        if (a = frm ∧ b = dst) ∨ (bidir = true ∧ a = dst ∧ b = frm) then true else h a b := by
  have hf := IntToID_letter frm
  have hd := IntToID_letter dst
  simp only [IntToID] at hf hd
  have hne2 : toupper (frm.val + 65) ≠ toupper (dst.val + 65) := by
    rw [hf.2.1, hd.2.1]
    intro hc
    exact hne (Fin.ext (by omega))
  rw [ParseLine_letters h _ _ _ _ hf.1 hd.1 hne2, hf.2.1, hd.2.1]
  have e1 := AddConnection_apply h frm dst
  have e2 := fun k => AddConnection_apply k dst frm
  simp only [IntToID] at e1 e2
  cases bidir
  · simp [e1]
  · simp only [if_true]
    norm_num
    intro a b
    rw [e2, e1]
    by_cases h1 : a = frm ∧ b = dst <;> by_cases h2 : a = dst ∧ b = frm <;> simp [h1, h2]

/-- C10: for a matrix without self-connection every line printed by `PrintGraph` has
four characters and is accepted by `ParseLine`, and parsing the printed lines in order,
starting from the empty matrix, gives the matrix back. -/
theorem PrintGraph_roundtrip (g : Graph) (hg : ∀ i : Fin 26, g i i = false) :
    (∀ l ∈ PrintGraph g, l.length = 4 ∧ ∀ h : Graph, (ParseLine l h).1 = true) ∧
    parseLines (PrintGraph g) ctor = g := by
  have hne : ∀ frm dst : Fin 26, g frm dst = true → frm ≠ dst := by
    intro frm dst h hc
    rw [hc, hg] at h
    exact Bool.false_ne_true h
  constructor
  · intro l hl
    obtain ⟨frm, dst, hc, rfl⟩ := (mem_PrintGraph g l).mp hl
    exact ⟨rfl, fun h => (ParseLine_printed h frm dst (hne frm dst hc.1) _).1⟩
  · funext a b
    rw [Bool.eq_iff_iff, parseLines_apply]
    simp only [ctor, Bool.false_eq_true, false_or]
    constructor
    · rintro ⟨l, hl, hp⟩
      obtain ⟨frm, dst, hc, rfl⟩ := (mem_PrintGraph g l).mp hl
      rw [(ParseLine_printed _ frm dst (hne frm dst hc.1) _).2] at hp
      split at hp
      · rename_i hsel
        rcases hsel with ⟨rfl, rfl⟩ | ⟨hb, rfl, rfl⟩
        · exact hc.1
        · exact hb
      · exact absurd hp Bool.false_ne_true
    · intro hab
      have hab_ne := hne a b hab
      by_cases hba : g b a = true
      · rcases lt_or_gt_of_ne hab_ne with hlt | hgt
        · refine ⟨_, (mem_PrintGraph g _).mpr ⟨a, b, ⟨hab, fun hc => ?_⟩, rfl⟩, ?_⟩
          · exact absurd hc.2 (not_lt.mpr hlt.le)
          · rw [(ParseLine_printed _ a b hab_ne _).2]
            simp
        · refine ⟨_, (mem_PrintGraph g _).mpr ⟨b, a, ⟨hba, fun hc => ?_⟩, rfl⟩, ?_⟩
          · exact absurd hc.2 (not_lt.mpr (le_of_lt hgt))
          · rw [(ParseLine_printed _ b a hab_ne.symm _).2]
            simp [hab]
      · refine ⟨_, (mem_PrintGraph g _).mpr ⟨a, b, ⟨hab, fun hc => hba hc.1⟩, rfl⟩, ?_⟩
        rw [(ParseLine_printed _ a b hab_ne _).2]
        simp

/-- The graph of `A->B`, `B<-C`, `D<>E` is printed as `A->B`, `C->B`, `D<>E`, which parses
back to the same graph. -/
theorem PrintGraph_roundtrip_witness :
    ((∀ i : Fin 26, exampleLines i i = false) ∧
      PrintGraph exampleLines = [str "A->B", str "C->B", str "D<>E"]) ∧
    ((∀ l ∈ PrintGraph exampleLines,
        l.length = 4 ∧ ∀ h : Graph, (ParseLine l h).1 = true) ∧
      parseLines (PrintGraph exampleLines) ctor = exampleLines) :=
  have hd : ∀ i : Fin 26, exampleLines i i = false := by decide!
  ⟨⟨hd, by decide!⟩, PrintGraph_roundtrip exampleLines hd⟩

/-- The test `!mGraph[from][to]` of `GenerateRandomGraph` is made at the two character
codes, 65 and above: the offset `26 * from + to` is at least 1755, outside the 676
cells of the matrix, so the test never reads the matrix. -/
theorem load_letters (g : Graph) (beyond : Int → Bool) (f t : Nat) :
    load g beyond ((f + 65 : Nat) : Int) ((t + 65 : Nat) : Int) =
      beyond (26 * ((f + 65 : Nat) : Int) + ((t + 65 : Nat) : Int)) := by
  unfold load
  rw [dif_neg]
  push_cast
  omega

/-- C7, at the failing input: for 2 nodes the distribution of the number of connections
can hand out 2, and the node distribution `(A, B)` twice. With zeroed memory outside the
matrix the second draw passes the test although `A->B` is in the matrix already; it is
counted as an insertion, and the call ends with one connection instead of two. -/
theorem GenerateRandomGraph_counts_duplicate :
    drawsFor 2 2 [(0, 1), (0, 1)] = true ∧
    (GenerateRandomGraph (fun _ => false) 2 [(0, 1)] ctor).isSome = false ∧
    (GenerateRandomGraph (fun _ => false) 2 [(0, 1), (0, 1)] ctor).map numEdges = some 1 := by
  decide!

/-- The connections added by `ParseLine` join two different nodes. -/
theorem ParseLine_diag (g : Graph) (inLine : List Nat) (i : Fin 26) :
    (ParseLine inLine g).2 i i = g i i := by
  simp only [ParseLine]
  split_ifs with h1 h2 h3 h4 h5 h6 h7
  all_goals first
    | rfl
    | skip
  all_goals
    have hl := IDToInt_toupper_range (inLine.getD 0 0) (by simpa using h2)
    have hr := IDToInt_toupper_range (inLine.getD 3 0) (by simpa using h3)
    have hne := IDToInt_ne _ _ h4
    simp only [AddConnection]
  · rw [store_apply_int _ _ _ hl hr, if_neg]
    omega
  · rw [store_apply_int _ _ _ hr hl, if_neg]
    omega
  · rw [store_apply_int _ _ _ hr hl, store_apply_int _ _ _ hl hr, if_neg, if_neg]
    · omega
    · omega

/-- The loop of `GenerateRandomGraph` adds connections between two different nodes
only, as long as the drawn numbers are node indices. -/
theorem generateLoop_diag (beyond : Int → Bool) (draws : List (Nat × Nat))
    (hd : ∀ d ∈ draws, d.1 < 26 ∧ d.2 < 26) (g : Graph) (num : Int) (g2 : Graph)
    (hrun : generateLoop beyond draws g num = some g2) (i : Fin 26) :
    g2 i i = g i i := by
  induction draws generalizing g num with
  | nil => simp [generateLoop] at hrun
  | cons d ds ih =>
    have hd1 := hd d (List.mem_cons_self _ _)
    have hds : ∀ e ∈ ds, e.1 < 26 ∧ e.2 < 26 := fun e he => hd e (List.mem_cons_of_mem _ he)
    have hadd : d.1 + 65 ≠ d.2 + 65 →
        AddConnection (d.1 + 65) (d.2 + 65) g i i = g i i := by
      intro hne
      unfold AddConnection IDToInt
      rw [store_apply_int _ _ _ (by omega) (by omega), if_neg]
      omega
    simp only [generateLoop] at hrun
    split_ifs at hrun with h1 h2 h3 h4 h5
    · exact ih hds g num hrun
    · simp only [Option.some.injEq] at hrun
      rw [← hrun]
    · rw [ih hds _ _ hrun]
      exact hadd h1
    · simp only [Option.some.injEq] at hrun
      rw [← hrun]
      exact hadd h1
    · exact ih hds g num hrun
    · simp only [Option.some.injEq] at hrun
      rw [← hrun]

/-- The numbers handed out for at most 26 nodes are node indices. -/
theorem drawsFor_lt (n cd : Int) (draws : List (Nat × Nat)) (hn : n ≤ 26)
    (h : drawsFor n cd draws = true) : ∀ d ∈ draws, d.1 < 26 ∧ d.2 < 26 := by
  unfold drawsFor at h
  simp only [Bool.and_eq_true, decide_eq_true_eq, List.all_eq_true] at h
  intro d hd
  have := h.2 d hd
  omega

/-- One well-formed call keeps the diagonal of the matrix. -/
theorem Op.run_diag (op : Op) (hop : op.wellFormed = true) (g g2 : Graph)
    (hrun : op.run g = some g2) (hg : ∀ i : Fin 26, g i i = false) :
    ∀ i : Fin 26, g2 i i = false := by
  intro i
  cases op with
  | parseLine inLine =>
    simp only [Op.run, Option.some.injEq] at hrun
    rw [← hrun, ParseLine_diag, hg]
  | cleanGraph t =>
    simp only [Op.run, Option.some.injEq] at hrun
    rw [← hrun]
    cases hv : (CleanGraph t g).1 i i
    · rfl
    · have := ((CleanGraph_matrix t g i i).mp hv).1
      rw [hg] at this
      exact absurd this Bool.false_ne_true
  | generateRandomGraph n beyond cd draws =>
    simp only [Op.wellFormed, Bool.and_eq_true, decide_eq_true_eq] at hop
    simp only [Op.run, GenerateRandomGraph] at hrun
    rw [generateLoop_diag beyond draws (drawsFor_lt n cd draws hop.1.2 hop.2) g _ g2 hrun, hg]

/-- C8: starting from the zero-initialised matrix of the constructor, after any finite
sequence of calls of `ParseLine`, `CleanGraph` and `GenerateRandomGraph` (for 2 to 26
nodes, every call finishing) no node is connected to itself. -/
theorem no_self_connection (ops : List Op) (hops : ops.all Op.wellFormed = true) :
    ∀ g ∈ runOps ops ctor, ∀ i : Fin 26, g i i = false := by
  have key : ∀ (ops : List Op) (g0 : Graph), ops.all Op.wellFormed = true →
      (∀ i : Fin 26, g0 i i = false) →
      ∀ g ∈ runOps ops g0, ∀ i : Fin 26, g i i = false := by
    intro ops
    induction ops with
    | nil =>
      intro g0 _ hg0 g hg
      simp only [runOps, Option.mem_def, Option.some.injEq] at hg
      rw [← hg]
      exact hg0
    | cons op rest ih =>
      intro g0 hwf hg0 g hg
      simp only [List.all_cons, Bool.and_eq_true] at hwf
      simp only [runOps, Option.mem_def] at hg
      cases hstep : op.run g0 with
      | none => simp [hstep] at hg
      | some g1 =>
        rw [hstep] at hg
        exact ih g1 hwf.2 (Op.run_diag op hwf.1 g0 g1 hstep hg0) g hg
  exact key ops ctor hops (fun _ => rfl)

/-- A session of five calls, all of which finish. -/
theorem no_self_connection_witness :
    (exampleSession.all Op.wellFormed = true ∧ (runOps exampleSession ctor).isSome = true) ∧
    ∀ g ∈ runOps exampleSession ctor, ∀ i : Fin 26, g i i = false :=
  have hw : exampleSession.all Op.wellFormed = true := by decide
  ⟨⟨hw, by decide!⟩, no_self_connection exampleSession hw⟩

end Program
